import Mathlib

/-
Verification of the CGCache in-memory key-value cache (src/app.py).

The two module-level Python dicts, cache_store (key -> body string) and
cache_expiration (key -> expiration timestamp), are embedded as association
lists with Python dict semantics: at most one entry per key, insertion order
preserved, assignment to an existing key updates in place, `del` removes the
single entry with that key. Timestamps are Nat seconds; datetime.now() becomes
an explicit `now` parameter; timedelta(minutes=15) becomes 900 seconds.

Each Flask handler's core (the code inside `with cache_lock:` plus the
validation that guards it) is a function from the current state to a result
paired with the next state. The lock makes every handler body atomic, so the
sequential functions here are exactly the linearized behaviour.
-/

namespace CGCache

/-- Python dict lookup d.get(k) / d[k] on an association list: the value of the
first (and in a dict, only) entry with key k. -/
def dlookup {α : Type} : List (String × α) → String → Option α
  | [], _ => none
  | p :: ps, k => if p.1 = k then some p.2 else dlookup ps k

/-- Python dict assignment d[k] = v: replace the value in place if the key is
present (dicts keep the original insertion position), else append at the end. -/
def dinsert {α : Type} : List (String × α) → String → α → List (String × α)
  | [], k, v => [(k, v)]
  | p :: ps, k, v => if p.1 = k then (k, v) :: ps else p :: dinsert ps k v

/-- Python `if k in d: del d[k]`: remove every entry whose key is k (a dict has
at most one, so this is exactly the guarded delete). -/
def delKey {α : Type} (d : List (String × α)) (k : String) : List (String × α) :=
  d.filter (fun p => decide (p.1 ≠ k))

/-- list(d.keys()): the keys in insertion order. -/
def dkeys {α : Type} (d : List (String × α)) : List String :=
  d.map Prod.fst

/-- The shared mutable state guarded by cache_lock: cache_store and
cache_expiration (src/app.py lines 23 and 26). -/
structure CacheState where
  cache_store : List (String × String)
  cache_expiration : List (String × Nat)
deriving DecidableEq, Repr

/-- Both dicts start empty at process startup. -/
def initState : CacheState := ⟨[], []⟩

/-- timedelta(minutes=15), the fixed TTL, in seconds. -/
def ttlSeconds : Nat := 15 * 60

/-- time.sleep(900): the sweep interval, in seconds. -/
def sweepIntervalSeconds : Nat := 900

/-- Result of the /save handler core: 400 for a missing cacheKey, 400 for an
empty body, otherwise 200 with the created/updated distinction (is_update). -/
inductive SaveResult where
  | errEmptyKey
  | errEmptyPayload
  | saved (created : Bool)
deriving DecidableEq, Repr

/-- Core of save_cache (src/app.py lines 127-146): validate the key and body,
then under the lock record is_update, store the body, and set the expiration
to now + 15 minutes in cache_expiration. -/
def saveCache (now : Nat) (k v : String) (s : CacheState) : SaveResult × CacheState :=
  if k = "" then (SaveResult.errEmptyKey, s)
  else if v = "" then (SaveResult.errEmptyPayload, s)
  else
    (SaveResult.saved (!decide (k ∈ dkeys s.cache_store)),
     { cache_store := dinsert s.cache_store k v,
       cache_expiration := dinsert s.cache_expiration k (now + ttlSeconds) })

/-- Result of the /get handler core: 400 for a missing cacheKey, 404 when the
key is not in cache_store, otherwise 200 with the stored string. -/
inductive GetResult where
  | errEmptyKey
  | notFound
  | ok (payload : String)
deriving DecidableEq, Repr

/-- Core of get_cache (src/app.py lines 177-206): after validating the key it
only tests membership in cache_store and returns cache_store[cache_key];
cache_expiration is read solely for the logged time_remaining, and nothing is
mutated. The `now` argument stands for the datetime.now() call used in that
log line; it does not influence the response. -/
def getCache (_now : Nat) (k : String) (s : CacheState) : GetResult × CacheState :=
  (if k = "" then GetResult.errEmptyKey
   else
     match dlookup s.cache_store k with
     | none => GetResult.notFound
     | some v => GetResult.ok v,
   s)

/-- Result of the /clear handler core: clearing everything reports the number
of keys removed; clearing one key reports success or 404. -/
inductive ClearResult where
  | allCleared (keysCleared : Nat)
  | keyCleared
  | notFound
deriving DecidableEq, Repr

/-- Core of clear_cache (src/app.py lines 221-248): with no usable cacheKey
(`not data or not data.get('cacheKey')`, which an empty string also triggers)
it snapshots len(cache_store) and clears both dicts; with a key it returns 404
when the key is absent from cache_store, else deletes the entry and its
expiration record (the latter guarded by membership). Expiration times are
never consulted. -/
def clearCache (key : Option String) (s : CacheState) : ClearResult × CacheState :=
  match key with
  | none => (ClearResult.allCleared s.cache_store.length, ⟨[], []⟩)
  | some k =>
    if k = "" then (ClearResult.allCleared s.cache_store.length, ⟨[], []⟩)
    else if k ∈ dkeys s.cache_store then
      (ClearResult.keyCleared,
       { cache_store := delKey s.cache_store k,
         cache_expiration :=
           if k ∈ dkeys s.cache_expiration then delKey s.cache_expiration k
           else s.cache_expiration })
    else (ClearResult.notFound, s)

/-- Core of get_all_keys (src/app.py lines 269-277): list(cache_store.keys())
and count = len(all_keys); no expiration filtering and no mutation. -/
def listKeysOp (s : CacheState) : (List String × Nat) × CacheState :=
  (((dkeys s.cache_store), (dkeys s.cache_store).length), s)

/-- One wake of cleanup_expired_cache (src/app.py lines 40-62): under the lock,
collect every key of cache_expiration whose expiration_time satisfies
current_time >= expiration_time, then delete each such key from cache_store
and from cache_expiration (each delete guarded by membership, which delKey
subsumes). The two dicts are updated independently, so folding the whole key
list over each dict equals the source's per-key interleaving. -/
def cleanupPass (now : Nat) (s : CacheState) : CacheState :=
  let expired_keys := dkeys (s.cache_expiration.filter (fun p => decide (p.2 ≤ now)))
  { cache_store := expired_keys.foldl delKey s.cache_store,
    cache_expiration := expired_keys.foldl delKey s.cache_expiration }

/-- State of the sweeper-start machinery: how many cleanup threads have ever
been spawned, and the _cleanup_job_started flag (src/app.py line 79). -/
structure SweeperState where
  threadsStarted : Nat
  cleanupJobStarted : Bool
deriving DecidableEq, Repr

/-- Process start: no thread spawned, flag false. -/
def sweeperInit : SweeperState := ⟨0, false⟩

/-- start_cleanup_job (src/app.py lines 68-75): unconditionally spawns a new
daemon thread running the cleanup loop. It does not touch the flag. -/
def start_cleanup_job (s : SweeperState) : SweeperState :=
  { s with threadsStarted := s.threadsStarted + 1 }

/-- ensure_cleanup_job_started (src/app.py lines 83-92): under
_cleanup_job_lock, spawn via start_cleanup_job only if the flag is still
false, then set the flag. The before_request hook calls exactly this. -/
def ensure_cleanup_job_started (s : SweeperState) : SweeperState :=
  if s.cleanupJobStarted then s
  else { start_cleanup_job s with cleanupJobStarted := true }

/-- The __main__ entry point (src/app.py line 303) calls start_cleanup_job
directly, bypassing the flag. -/
def mainEntryStart (s : SweeperState) : SweeperState :=
  start_cleanup_job s

/-- Folding /save over a list of (key, body) pairs: N successive Put calls. -/
def putMany (now : Nat) (ps : List (String × String)) (s : CacheState) : CacheState :=
  ps.foldl (fun st p => (saveCache now p.1 p.2 st).2) s

/-- States reachable from the empty store by any interleaving of handler
cores and sweep passes, each at an arbitrary time and with arbitrary
arguments. -/
inductive Reachable : CacheState → Prop where
  | init : Reachable initState
  | save (s : CacheState) (now : Nat) (k v : String) :
      Reachable s → Reachable (saveCache now k v s).2
  | get (s : CacheState) (now : Nat) (k : String) :
      Reachable s → Reachable (getCache now k s).2
  | clear (s : CacheState) (key : Option String) :
      Reachable s → Reachable (clearCache key s).2
  | list (s : CacheState) : Reachable s → Reachable (listKeysOp s).2
  | sweep (s : CacheState) (now : Nat) : Reachable s → Reachable (cleanupPass now s)

end CGCache

namespace CGCache

@[simp] theorem dkeys_nil {α : Type} : dkeys ([] : List (String × α)) = [] := rfl

@[simp] theorem dkeys_cons {α : Type} (p : String × α) (ps : List (String × α)) :
    dkeys (p :: ps) = p.1 :: dkeys ps := rfl

/-- Looking up the key just assigned returns the assigned value. -/
theorem dlookup_dinsert_self {α : Type} (d : List (String × α)) (k : String) (v : α) :
    dlookup (dinsert d k v) k = some v := by
  induction d with
  | nil => simp [dinsert, dlookup]
  | cons p ps ih =>
      by_cases h : p.1 = k
      · simp [dinsert, h, dlookup]
      · simp [dinsert, h, dlookup, ih]

/-- The keys after an assignment are the old keys plus the assigned key. -/
theorem mem_dkeys_dinsert {α : Type} (d : List (String × α)) (k : String) (v : α)
    (a : String) : a ∈ dkeys (dinsert d k v) ↔ a ∈ dkeys d ∨ a = k := by
  induction d with
  | nil => simp [dinsert]
  | cons p ps ih =>
      by_cases h : p.1 = k
      · simp [dinsert, h]
        tauto
      · simp [dinsert, h, ih]
        tauto

/-- Assigning a fresh key appends it at the end of the key order. -/
theorem dkeys_dinsert_of_not_mem {α : Type} (d : List (String × α)) (k : String) (v : α)
    (h : k ∉ dkeys d) : dkeys (dinsert d k v) = dkeys d ++ [k] := by
  induction d with
  | nil => simp [dinsert]
  | cons p ps ih =>
      simp only [dkeys_cons, List.mem_cons] at h
      push_neg at h
      have hne : p.1 ≠ k := fun hpk => h.1 hpk.symm
      simp [dinsert, hne, ih h.2]

/-- Membership after a guarded delete. -/
theorem mem_delKey {α : Type} (d : List (String × α)) (k : String) (p : String × α) :
    p ∈ delKey d k ↔ p ∈ d ∧ p.1 ≠ k := by
  simp [delKey, List.mem_filter]

/-- Key membership after a guarded delete. -/
theorem mem_dkeys_delKey {α : Type} (d : List (String × α)) (k : String) (a : String) :
    a ∈ dkeys (delKey d k) ↔ a ∈ dkeys d ∧ a ≠ k := by
  simp only [dkeys, List.mem_map]
  constructor
  · rintro ⟨x, hx, hfst⟩
    rw [mem_delKey] at hx
    exact ⟨⟨x, hx.1, hfst⟩, hfst ▸ hx.2⟩
  · rintro ⟨⟨x, hx, hfst⟩, hne⟩
    exact ⟨x, (mem_delKey d k x).mpr ⟨hx, hfst ▸ hne⟩, hfst⟩

/-- Membership after deleting a whole list of keys in sequence. -/
theorem mem_foldl_delKey {α : Type} (ks : List String) :
    ∀ (d : List (String × α)) (p : String × α),
      p ∈ ks.foldl delKey d ↔ p ∈ d ∧ p.1 ∉ ks := by
  induction ks with
  | nil => simp
  | cons k ks ih =>
      intro d p
      simp only [List.foldl_cons, ih, mem_delKey, List.mem_cons]
      tauto

/-- Key membership after deleting a whole list of keys in sequence. -/
theorem mem_dkeys_foldl_delKey {α : Type} (ks : List String) (d : List (String × α))
    (a : String) : a ∈ dkeys (ks.foldl delKey d) ↔ a ∈ dkeys d ∧ a ∉ ks := by
  simp only [dkeys, List.mem_map]
  constructor
  · rintro ⟨x, hx, hfst⟩
    rw [mem_foldl_delKey] at hx
    exact ⟨⟨x, hx.1, hfst⟩, hfst ▸ hx.2⟩
  · rintro ⟨⟨x, hx, hfst⟩, hne⟩
    exact ⟨x, (mem_foldl_delKey ks d x).mpr ⟨hx, hfst ▸ hne⟩, hfst⟩

/-- A string is a key of the list exactly when it has an entry. -/
theorem mem_dkeys_iff {α : Type} (d : List (String × α)) (a : String) :
    a ∈ dkeys d ↔ ∃ b, (a, b) ∈ d := by
  simp only [dkeys, List.mem_map]
  constructor
  · rintro ⟨⟨x1, x2⟩, hx, rfl⟩
    exact ⟨x2, hx⟩
  · rintro ⟨b, hb⟩
    exact ⟨(a, b), hb, rfl⟩

/-- In a list with no duplicate keys, a key determines its value. -/
theorem val_eq_of_nodup_dkeys {α : Type} :
    ∀ (d : List (String × α)), (dkeys d).Nodup →
      ∀ (k : String) (a b : α), (k, a) ∈ d → (k, b) ∈ d → a = b := by
  intro d
  induction d with
  | nil => intro _ k a b ha; cases ha
  | cons p ps ih =>
      intro hnd k a b ha hb
      simp only [dkeys_cons, List.nodup_cons] at hnd
      rcases List.mem_cons.mp ha with ha | ha <;> rcases List.mem_cons.mp hb with hb | hb
      · rw [← ha] at hb
        exact (Prod.mk.injEq .. ▸ hb).2.symm
      · have hk : p.1 = k := by rw [← ha]
        exact absurd ((mem_dkeys_iff ps k).mpr ⟨b, hb⟩) (hk ▸ hnd.1)
      · have hk : p.1 = k := by rw [← hb]
        exact absurd ((mem_dkeys_iff ps k).mpr ⟨a, ha⟩) (hk ▸ hnd.1)
      · exact ih hnd.2 k a b ha hb

/-- dkeys preserves length. -/
theorem length_dkeys {α : Type} (d : List (String × α)) : (dkeys d).length = d.length :=
  List.length_map d Prod.fst

/-- Putting a list of valid entries with pairwise-distinct keys, all fresh for
the current store, appends exactly those keys to the store in order. -/
theorem dkeys_putMany (now : Nat) :
    ∀ (ps : List (String × String)) (s : CacheState),
      (∀ p ∈ ps, p.1 ≠ "" ∧ p.2 ≠ "") → (ps.map Prod.fst).Nodup →
      (∀ p ∈ ps, p.1 ∉ dkeys s.cache_store) →
      dkeys (putMany now ps s).cache_store = dkeys s.cache_store ++ ps.map Prod.fst := by
  intro ps
  induction ps with
  | nil => intro s _ _ _; simp [putMany]
  | cons p ps ih =>
      intro s hvalid hnd hdisj
      have hp := hvalid p (List.mem_cons_self p ps)
      have hfresh : p.1 ∉ dkeys s.cache_store := hdisj p (List.mem_cons_self p ps)
      have hstate : (saveCache now p.1 p.2 s).2.cache_store =
          dinsert s.cache_store p.1 p.2 := by
        simp [saveCache, hp.1, hp.2]
      have hkeys1 : dkeys (saveCache now p.1 p.2 s).2.cache_store =
          dkeys s.cache_store ++ [p.1] := by
        rw [hstate]
        exact dkeys_dinsert_of_not_mem _ _ _ hfresh
      simp only [List.map_cons, List.nodup_cons] at hnd
      have hstep : putMany now (p :: ps) s = putMany now ps (saveCache now p.1 p.2 s).2 := rfl
      rw [hstep, ih (saveCache now p.1 p.2 s).2
        (fun q hq => hvalid q (List.mem_cons_of_mem p hq)) hnd.2 ?_, hkeys1]
      · simp
      · intro q hq
        rw [hkeys1]
        simp only [List.mem_append, List.mem_singleton]
        push_neg
        refine ⟨hdisj q (List.mem_cons_of_mem p hq), ?_⟩
        intro hqp
        exact hnd.1 (hqp ▸ List.mem_map_of_mem Prod.fst hq)

/-- C1: Put("k","v") at T = 0 gives expiresAt = 900 = T + TTL, yet with no
sweep in between, Get("k") at now = 900 (a time at or after T + TTL) still
returns the payload with 200 rather than NotFound: get_cache never consults
cache_expiration, so there is no lazy expiry at lookup time. -/
theorem c1_get_serves_expired_entry :
    (saveCache 0 "k" "v" initState).2.cache_expiration = [("k", 0 + ttlSeconds)] ∧
    (getCache (0 + ttlSeconds) "k" (saveCache 0 "k" "v" initState).2).1 = GetResult.ok "v" := by
  decide

/-- C2 counterexample: in the state holding one entry for "k" whose
expiration time 100 is not strictly after the current time 200, ListKeys
still returns ["k"] with count 1, where the claim demands the empty
sequence with count 0. -/
theorem c2_lists_expired_key :
    (listKeysOp ⟨[("k", "v")], [("k", 100)]⟩).1 = (["k"], 1) ∧ (100 : Nat) ≤ 200 := by
  decide

/-- C3: starting from process start, the __main__ startup call to
start_cleanup_job followed by the first request's before_request hook
(ensure_cleanup_job_started) spawns two cleanup threads, not one: the
startup call never sets _cleanup_job_started, so the hook starts a second
thread. -/
theorem c3_main_plus_request_starts_two_threads :
    (ensure_cleanup_job_started (mainEntryStart sweeperInit)).threadsStarted = 2 := by
  decide

/-- C6 counterexample: in the state holding entry "k" already expired
(expiration 100, current time 200), Delete("k") returns the success result
(keyCleared), not NotFound: clear_cache tests only membership in
cache_store and never reads cache_expiration times. -/
theorem c6_delete_returns_deleted_for_expired :
    (clearCache (some "k") ⟨[("k", "v")], [("k", 100)]⟩).1 = ClearResult.keyCleared ∧
    (100 : Nat) ≤ 200 := by
  decide

/-- C2 amended: ListKeys returns exactly the keys currently present in the
entry map, in insertion order, with count equal to the number of stored
entries — regardless of expiration times, so expired-but-not-yet-swept
entries are included. -/
theorem c2_amended_list_returns_all_stored_keys (s : CacheState) (a : String) :
    (a ∈ (listKeysOp s).1.1 ↔ a ∈ dkeys s.cache_store) ∧
    (listKeysOp s).1.2 = s.cache_store.length := by
  exact ⟨Iff.rfl, length_dkeys s.cache_store⟩

/-- C4: one sweep pass at time S removes exactly the expired entries. For
every recorded expiration (k, t): if t ≤ S then k is absent from both
cache_store and cache_expiration afterwards; if t > S then k keeps its
original expiration record and every stored payload for k survives
unchanged. The no-duplicate-keys hypothesis is the Python dict invariant. -/
theorem c4_sweep_removes_exactly_expired (s : CacheState) (now : Nat)
    (hnd : (dkeys s.cache_expiration).Nodup) (k : String) (t : Nat)
    (hmem : (k, t) ∈ s.cache_expiration) :
    (t ≤ now →
      k ∉ dkeys (cleanupPass now s).cache_store ∧
      k ∉ dkeys (cleanupPass now s).cache_expiration) ∧
    (now < t →
      (k, t) ∈ (cleanupPass now s).cache_expiration ∧
      ∀ v, (k, v) ∈ s.cache_store → (k, v) ∈ (cleanupPass now s).cache_store) := by
  constructor
  · intro hle
    have hexp : k ∈ dkeys (s.cache_expiration.filter (fun p => decide (p.2 ≤ now))) := by
      refine (mem_dkeys_iff _ k).mpr ⟨t, List.mem_filter.mpr ⟨hmem, ?_⟩⟩
      simpa using hle
    constructor
    · intro hcon
      exact ((mem_dkeys_foldl_delKey _ _ _).mp hcon).2 hexp
    · intro hcon
      exact ((mem_dkeys_foldl_delKey _ _ _).mp hcon).2 hexp
  · intro hgt
    have hnotexp : k ∉ dkeys (s.cache_expiration.filter (fun p => decide (p.2 ≤ now))) := by
      intro hcon
      obtain ⟨u, hu⟩ := (mem_dkeys_iff _ k).mp hcon
      have hu2 := List.mem_filter.mp hu
      have : u = t := val_eq_of_nodup_dkeys s.cache_expiration hnd k u t hu2.1 hmem
      have hle : u ≤ now := by simpa using hu2.2
      omega
    refine ⟨(mem_foldl_delKey _ _ _).mpr ⟨hmem, hnotexp⟩, fun v hv => ?_⟩
    exact (mem_foldl_delKey _ _ _).mpr ⟨hv, hnotexp⟩

/-- Witness for C4 at a concrete two-entry store: sweeping at time 1000
removes the entry for "a" (expiration 10) from both maps. -/
theorem c4_witness :
    "a" ∉ dkeys (cleanupPass 1000
      (⟨[("a", "x"), ("b", "y")], [("a", 10), ("b", 2000)]⟩ : CacheState)).cache_store ∧
    "a" ∉ dkeys (cleanupPass 1000
      (⟨[("a", "x"), ("b", "y")], [("a", 10), ("b", 2000)]⟩ : CacheState)).cache_expiration :=
  (c4_sweep_removes_exactly_expired
    ⟨[("a", "x"), ("b", "y")], [("a", 10), ("b", 2000)]⟩ 1000 (by decide)
    "a" 10 (by decide)).1 (by decide)

/-- C5: Put(k, v) with a non-empty key and non-empty payload, immediately
followed by Get(k) before the TTL has elapsed, returns exactly the stored
payload. -/
theorem c5_put_get_round_trip (s : CacheState) (nowPut nowGet : Nat) (k v : String)
    (hk : k ≠ "") (hv : v ≠ "") (_hfresh : nowGet < nowPut + ttlSeconds) :
    (getCache nowGet k (saveCache nowPut k v s).2).1 = GetResult.ok v := by
  have hstate : (saveCache nowPut k v s).2.cache_store = dinsert s.cache_store k v := by
    simp [saveCache, hk, hv]
  simp [getCache, hk, hstate, dlookup_dinsert_self]

/-- Witness for C5: Put("a", "hello") at time 0 then Get("a") at time 5. -/
theorem c5_witness :
    (getCache 5 "a" (saveCache 0 "a" "hello" initState).2).1 = GetResult.ok "hello" :=
  c5_put_get_round_trip initState 0 5 "a" "hello" (by decide) (by decide) (by decide)

/-- C6 amended: Delete(k) decides by presence in the entry map only — it
returns NotFound exactly when k is absent from cache_store at call time, and
deletes (returning the success result) whenever k is present, even if the
entry is already expired but not yet swept. -/
theorem c6_amended_delete_ignores_expiry (s : CacheState) (k : String) (hk : k ≠ "") :
    ((clearCache (some k) s).1 = ClearResult.notFound ↔ k ∉ dkeys s.cache_store) ∧
    (k ∈ dkeys s.cache_store → (clearCache (some k) s).1 = ClearResult.keyCleared) := by
  by_cases hmem : k ∈ dkeys s.cache_store <;> simp [clearCache, hk, hmem]

/-- Witness for C6 amended: deleting "a" from the empty store is NotFound. -/
theorem c6_amended_witness :
    (((clearCache (some "a") initState).1 = ClearResult.notFound ↔
      "a" ∉ dkeys initState.cache_store) ∧
     ("a" ∈ dkeys initState.cache_store →
      (clearCache (some "a") initState).1 = ClearResult.keyCleared)) :=
  c6_amended_delete_ignores_expiry initState "a" (by decide)

/-- C7: after N Puts of distinct non-empty keys with non-empty payloads into
the empty store, ClearAll reports exactly N keys cleared, leaves both maps
empty, and a ListKeys on the resulting state returns the empty sequence with
count 0. -/
theorem c7_clear_all_after_puts (ps : List (String × String)) (now : Nat)
    (hvalid : ∀ p ∈ ps, p.1 ≠ "" ∧ p.2 ≠ "") (hnd : (ps.map Prod.fst).Nodup) :
    (clearCache none (putMany now ps initState)).1 = ClearResult.allCleared ps.length ∧
    (clearCache none (putMany now ps initState)).2 = initState ∧
    (listKeysOp (clearCache none (putMany now ps initState)).2).1 = ([], 0) := by
  have hkeys := dkeys_putMany now ps initState hvalid hnd
    (by intro p hp; simp [initState])
  have hlen : (putMany now ps initState).cache_store.length = ps.length := by
    have h1 := congrArg List.length hkeys
    rw [length_dkeys] at h1
    simpa [initState] using h1
  refine ⟨?_, rfl, rfl⟩
  simp [clearCache, hlen]

/-- Witness for C7 with two distinct keys. -/
theorem c7_witness :
    (clearCache none (putMany 0 [("a", "x"), ("b", "y")] initState)).1 =
      ClearResult.allCleared 2 ∧
    (clearCache none (putMany 0 [("a", "x"), ("b", "y")] initState)).2 = initState ∧
    (listKeysOp (clearCache none (putMany 0 [("a", "x"), ("b", "y")] initState)).2).1 =
      ([], 0) :=
  c7_clear_all_after_puts [("a", "x"), ("b", "y")] 0 (by decide) (by decide)

/-- C8: in every state reachable from the empty store by any sequence of
Put, Get, Delete, ClearAll, ListKeys and sweep passes, cache_store and
cache_expiration hold exactly the same set of keys. -/
theorem c8_store_and_expiration_in_sync (s : CacheState) (hs : Reachable s) :
    ∀ a, a ∈ dkeys s.cache_store ↔ a ∈ dkeys s.cache_expiration := by
  induction hs with
  | init => intro a; simp [initState]
  | save s now k v _ ih =>
      intro a
      by_cases hk : k = ""
      · simpa [saveCache, hk] using ih a
      · by_cases hv : v = ""
        · simpa [saveCache, hk, hv] using ih a
        · have h2 : (saveCache now k v s).2 =
              ({ cache_store := dinsert s.cache_store k v,
                 cache_expiration := dinsert s.cache_expiration k (now + ttlSeconds) } :
               CacheState) := by
            simp [saveCache, hk, hv]
          rw [h2]
          dsimp only
          rw [mem_dkeys_dinsert, mem_dkeys_dinsert]
          have := ih a
          tauto
  | get s now k _ ih => exact ih
  | clear s key _ ih =>
      match key with
      | none => intro a; simp [clearCache, initState]
      | some k =>
          by_cases hk : k = ""
          · intro a; simp [clearCache, hk]
          · by_cases hmem : k ∈ dkeys s.cache_store
            · have hmem2 : k ∈ dkeys s.cache_expiration := (ih k).mp hmem
              intro a
              have h2 : (clearCache (some k) s).2 =
                  ({ cache_store := delKey s.cache_store k,
                     cache_expiration := delKey s.cache_expiration k } : CacheState) := by
                simp [clearCache, hk, hmem, hmem2]
              rw [h2]
              dsimp only
              rw [mem_dkeys_delKey, mem_dkeys_delKey]
              have := ih a
              tauto
            · intro a
              have h2 : (clearCache (some k) s).2 = s := by
                simp [clearCache, hk, hmem]
              rw [h2]
              exact ih a
  | list s _ ih => exact ih
  | sweep s now _ ih =>
      intro a
      simp only [cleanupPass]
      rw [mem_dkeys_foldl_delKey, mem_dkeys_foldl_delKey]
      have := ih a
      tauto

/-- Witness for C8 at the reachable state obtained by one Put. -/
theorem c8_witness :
    "a" ∈ dkeys (saveCache 3 "a" "x" initState).2.cache_store ↔
    "a" ∈ dkeys (saveCache 3 "a" "x" initState).2.cache_expiration :=
  c8_store_and_expiration_in_sync (saveCache 3 "a" "x" initState).2
    (Reachable.save initState 3 "a" "x" Reachable.init) "a"

/-- C10: a Put with an empty key or an empty payload is rejected before the
locked region: the state is returned untouched and the result is the
corresponding error, the empty-key check coming first. -/
theorem c10_put_error_leaves_state_unchanged (s : CacheState) (now : Nat) (k v : String)
    (h : k = "" ∨ v = "") :
    (saveCache now k v s).2 = s ∧
    (k = "" → (saveCache now k v s).1 = SaveResult.errEmptyKey) ∧
    (k ≠ "" → (saveCache now k v s).1 = SaveResult.errEmptyPayload) := by
  by_cases hk : k = ""
  · simp [saveCache, hk]
  · have hv : v = "" := h.resolve_left hk
    simp [saveCache, hk, hv]

/-- Witness for C10: an empty-key Put against a one-entry store. -/
theorem c10_witness :
    (saveCache 7 "" "x" (⟨[("b", "y")], [("b", 1)]⟩ : CacheState)).2 =
      (⟨[("b", "y")], [("b", 1)]⟩ : CacheState) ∧
    ("" = "" → (saveCache 7 "" "x" (⟨[("b", "y")], [("b", 1)]⟩ : CacheState)).1 =
      SaveResult.errEmptyKey) ∧
    ("" ≠ "" → (saveCache 7 "" "x" (⟨[("b", "y")], [("b", 1)]⟩ : CacheState)).1 =
      SaveResult.errEmptyPayload) :=
  c10_put_error_leaves_state_unchanged ⟨[("b", "y")], [("b", 1)]⟩ 7 "" "x" (Or.inl rfl)

/-- C9: Get and ListKeys never mutate the store: for every current time, key
(empty, absent, present or expired) and state, both handlers return the state
exactly as it was; in particular no lazy eviction happens on read. -/
theorem c9_get_and_list_do_not_mutate (now : Nat) (k : String) (s : CacheState) :
    (getCache now k s).2 = s ∧ (listKeysOp s).2 = s :=
  ⟨rfl, rfl⟩

end CGCache
